import Mathlib

set_option autoImplicit false

/-!
Verification of the unified memory coordination subsystem of the
ybryx-robo-financial backend.

Part 1 embeds the Composite Scorer
(`backend/app/memory/manager.py`, `MemoryManager._apply_composite_scoring`).

Modelling conventions:
* Python floats are modelled as exact rationals (the scorer only adds,
  multiplies and divides small constants).
* `datetime` values are modelled as integer timestamps in seconds;
  `(now - created_at).days` is Python floor division of the difference by
  86400 (`timedelta.days` floors toward negative infinity), i.e. `Int.fdiv`.
* A Mem0 search result (one element of the `results` list) is modelled by
  `Hit`: `score` is `result.get("score", 0.5)` (absent = `none`),
  `created_at` is the parsed `metadata["created_at"]` timestamp (absent =
  `none`), `access_count` is `metadata.get("access_count", 0)`.
* `result["composite_score"] = ...` (annotating the dict) is modelled by
  wrapping the hit in a `ScoredHit`.
* Python `list.sort(key=..., reverse=True)` is a stable descending sort; it
  is modelled by `sortByCompositeDesc`, a left-fold insertion sort that
  places each element after all previously placed elements with a greater
  or equal key (the standard functional model of a stable descending sort).
-/

/-- One Mem0 search result as consumed by `_apply_composite_scoring`. -/
structure Hit where
  score : Option ℚ
  created_at : Option Int
  access_count : Nat
deriving Repr, DecidableEq

/-- A search result after the scorer has annotated it with `composite_score`. -/
structure ScoredHit where
  hit : Hit
  composite_score : ℚ
deriving Repr, DecidableEq

/-- `(now - created_at).days`: Python `timedelta.days` floors the difference
(in seconds) toward negative infinity over 86400-second days. -/
def ageDays (now created : Int) : Int := Int.fdiv (now - created) 86400

/-- `relevance_score = result.get("score", 0.5)`. -/
def relevance_score (h : Hit) : ℚ := h.score.getD (1 / 2)

/-- `recency_score = max(0, 1 - age_days / 30)` when `created_at` is present,
else `0.5` (manager.py lines 337-344). -/
def recency_score (now : Int) (h : Hit) : ℚ :=
  match h.created_at with
  | some c => max 0 (1 - (ageDays now c : ℚ) / 30)
  | none => 1 / 2

/-- `frequency_score = min(1.0, access_count / 10)` (manager.py line 348). -/
def frequency_score (h : Hit) : ℚ := min 1 ((h.access_count : ℚ) / 10)

/-- `composite_score = 0.5 * relevance + 0.3 * recency + 0.2 * frequency`
(manager.py lines 351-355). -/
def composite_score_of (now : Int) (h : Hit) : ℚ :=
  (1 / 2) * relevance_score h + (3 / 10) * recency_score now h
    + (1 / 5) * frequency_score h

/-- `result["composite_score"] = composite_score; scored.append(result)`. -/
def annotate (now : Int) (h : Hit) : ScoredHit := ⟨h, composite_score_of now h⟩

/-- Insert into a descending-sorted list, after all elements with a greater
or equal `composite_score` (the insertion step of a stable descending sort). -/
def insertDesc (x : ScoredHit) : List ScoredHit → List ScoredHit
  | [] => [x]
  | y :: ys =>
    if y.composite_score < x.composite_score then x :: y :: ys
    else y :: insertDesc x ys

/-- `scored.sort(key=lambda x: x["composite_score"], reverse=True)`:
stable descending sort, modelled as a left-fold insertion sort. -/
def sortByCompositeDesc (l : List ScoredHit) : List ScoredHit :=
  l.foldl (fun acc x => insertDesc x acc) []

/-- `MemoryManager._apply_composite_scoring` (manager.py lines 318-362):
annotate every result with its composite score, then stable-sort descending
by that score. -/
def apply_composite_scoring (now : Int) (results : List Hit) : List ScoredHit :=
  sortByCompositeDesc (results.map (annotate now))

/-- The descending order used by the scorer's sort. -/
def scoreGE (a b : ScoredHit) : Prop := b.composite_score ≤ a.composite_score

theorem insertDesc_perm (x : ScoredHit) (l : List ScoredHit) :
    List.Perm (insertDesc x l) (x :: l) := by
  induction l with
  | nil => exact List.Perm.refl _
  | cons y ys ih =>
    by_cases h : y.composite_score < x.composite_score
    · simp only [insertDesc, if_pos h]
      exact List.Perm.refl _
    · simp only [insertDesc, if_neg h]
      exact (ih.cons y).trans (List.Perm.swap x y ys)

theorem insertDesc_sorted (x : ScoredHit) (l : List ScoredHit)
    (hl : l.Pairwise scoreGE) : (insertDesc x l).Pairwise scoreGE := by
  induction l with
  | nil => simp [insertDesc, List.pairwise_singleton]
  | cons y ys ih =>
    obtain ⟨hy, hys⟩ := List.pairwise_cons.mp hl
    by_cases h : y.composite_score < x.composite_score
    · simp only [insertDesc, if_pos h]
      refine List.pairwise_cons.mpr ⟨?_, hl⟩
      intro z hz
      rcases List.mem_cons.mp hz with rfl | hz'
      · exact le_of_lt h
      · exact le_trans (hy z hz') (le_of_lt h)
    · simp only [insertDesc, if_neg h]
      refine List.pairwise_cons.mpr ⟨?_, ih hys⟩
      intro z hz
      have hz' := (insertDesc_perm x ys).mem_iff.mp hz
      rcases List.mem_cons.mp hz' with rfl | hz''
      · exact not_lt.mp h
      · exact hy z hz''

theorem insertDesc_of_le (x : ScoredHit) (l : List ScoredHit)
    (h : ∀ y ∈ l, x.composite_score ≤ y.composite_score) :
    insertDesc x l = l ++ [x] := by
  induction l with
  | nil => rfl
  | cons y ys ih =>
    have hy : ¬ y.composite_score < x.composite_score :=
      not_lt.mpr (h y (List.mem_cons_self y ys))
    simp only [insertDesc, if_neg hy, List.cons_append]
    rw [ih (fun z hz => h z (List.mem_cons_of_mem y hz))]

theorem sortAux_perm (l acc : List ScoredHit) :
    List.Perm (List.foldl (fun acc x => insertDesc x acc) acc l) (acc ++ l) := by
  induction l generalizing acc with
  | nil => simp
  | cons x xs ih =>
    exact (ih (insertDesc x acc)).trans
      (((insertDesc_perm x acc).append_right xs).trans List.perm_middle.symm)

theorem sortAux_sorted (l acc : List ScoredHit) (h : acc.Pairwise scoreGE) :
    (List.foldl (fun acc x => insertDesc x acc) acc l).Pairwise scoreGE := by
  induction l generalizing acc with
  | nil => exact h
  | cons x xs ih => exact ih (insertDesc x acc) (insertDesc_sorted x acc h)

/-- Membership test for a given composite score, as used to state stability. -/
def pkey (s : ℚ) (y : ScoredHit) : Bool := decide (y.composite_score = s)

theorem insertDesc_filter_ne (s : ℚ) (x : ScoredHit) (l : List ScoredHit)
    (hx : x.composite_score ≠ s) :
    (insertDesc x l).filter (pkey s) = l.filter (pkey s) := by
  induction l with
  | nil => simp [insertDesc, pkey, hx]
  | cons y ys ih =>
    by_cases h : y.composite_score < x.composite_score
    · simp [insertDesc, if_pos h, List.filter_cons, pkey, hx]
    · simp only [insertDesc, if_neg h, List.filter_cons, ih]

theorem insertDesc_filter_eq (s : ℚ) (x : ScoredHit) (l : List ScoredHit)
    (hx : x.composite_score = s) (hl : l.Pairwise scoreGE) :
    (insertDesc x l).filter (pkey s) = l.filter (pkey s) ++ [x] := by
  induction l with
  | nil => simp [insertDesc, pkey, hx]
  | cons y ys ih =>
    obtain ⟨hy, hys⟩ := List.pairwise_cons.mp hl
    by_cases h : y.composite_score < x.composite_score
    · have hlt : ∀ z ∈ y :: ys, z.composite_score < s := by
        intro z hz
        rcases List.mem_cons.mp hz with rfl | hz'
        · exact hx ▸ h
        · exact lt_of_le_of_lt (hy z hz') (hx ▸ h)
      have hfil : (y :: ys).filter (pkey s) = [] := by
        refine List.filter_eq_nil_iff.mpr ?_
        intro z hz
        simp only [pkey, decide_eq_true_eq]
        exact ne_of_lt (hlt z hz)
      simp only [insertDesc, if_pos h]
      rw [List.filter_cons, hfil]
      simp [pkey, hx]
    · simp only [insertDesc, if_neg h, List.filter_cons, ih hys]
      by_cases hy' : pkey s y <;> simp [hy']

theorem sortAux_filter (s : ℚ) (l acc : List ScoredHit) (hacc : acc.Pairwise scoreGE) :
    (List.foldl (fun acc x => insertDesc x acc) acc l).filter (pkey s)
      = acc.filter (pkey s) ++ l.filter (pkey s) := by
  induction l generalizing acc with
  | nil => simp
  | cons x xs ih =>
    have h1 := ih (insertDesc x acc) (insertDesc_sorted x acc hacc)
    show (List.foldl (fun acc x => insertDesc x acc) (insertDesc x acc) xs).filter (pkey s)
      = acc.filter (pkey s) ++ (x :: xs).filter (pkey s)
    rw [h1]
    by_cases hx : x.composite_score = s
    · rw [insertDesc_filter_eq s x acc hx hacc]
      simp [List.filter_cons, pkey, hx]
    · rw [insertDesc_filter_ne s x acc hx]
      simp [List.filter_cons, pkey, hx]

theorem sortAux_sorted_id (l acc : List ScoredHit) (hacc : acc.Pairwise scoreGE)
    (hl : l.Pairwise scoreGE)
    (hcross : ∀ a ∈ acc, ∀ x ∈ l, x.composite_score ≤ a.composite_score) :
    List.foldl (fun acc x => insertDesc x acc) acc l = acc ++ l := by
  induction l generalizing acc with
  | nil => simp
  | cons x xs ih =>
    obtain ⟨hx, hxs⟩ := List.pairwise_cons.mp hl
    have h1 : insertDesc x acc = acc ++ [x] :=
      insertDesc_of_le x acc (fun y hy => hcross y hy x (List.mem_cons_self x xs))
    have hacc' : (acc ++ [x]).Pairwise scoreGE := by
      refine List.pairwise_append.mpr ⟨hacc, List.pairwise_singleton _ _, ?_⟩
      intro a ha b hb
      rw [List.mem_singleton.mp hb]
      exact hcross a ha x (List.mem_cons_self x xs)
    have hcross' : ∀ a ∈ acc ++ [x], ∀ z ∈ xs, z.composite_score ≤ a.composite_score := by
      intro a ha z hz
      rcases List.mem_append.mp ha with ha' | ha'
      · exact hcross a ha' z (List.mem_cons_of_mem x hz)
      · rw [List.mem_singleton.mp ha']
        exact hx z hz
    show List.foldl (fun acc x => insertDesc x acc) (insertDesc x acc) xs = acc ++ x :: xs
    rw [h1, ih (acc ++ [x]) hacc' hxs hcross']
    simp

/-- C5: every recalled hit is annotated with
composite_score = 0.5·relevance + 0.3·recency + 0.2·frequency, where
relevance defaults to 0.5 when the hit carries no score,
recency = max(0, 1 − age_in_days/30) (0.5 when no created_at timestamp is
present), and frequency = min(1, access_count/10) with access_count
defaulting to 0 (manager.py lines 333-357). -/
theorem composite_scorer_formula (now : Int) (h : Hit) :
    (annotate now h).composite_score =
      0.5 * h.score.getD 0.5
      + 0.3 * (match h.created_at with
          | some c => max 0 (1 - ((Int.fdiv (now - c) 86400 : Int) : ℚ) / 30)
          | none => 0.5)
      + 0.2 * min 1 ((h.access_count : ℚ) / 10) := by
  rcases h with ⟨sc, cr, ac⟩
  cases cr <;> cases sc <;>
    simp only [annotate, composite_score_of, relevance_score, recency_score,
      frequency_score, ageDays, Option.getD_some, Option.getD_none] <;>
    norm_num

/-- C6: the Composite Scorer's output is exactly the input sequence
annotated with composite_score, sorted descending by that score; hits of
equal composite_score retain their relative input order (expressed as
filter-stability: for every score value, the subsequence of output hits
carrying that value equals the corresponding input subsequence); applying
the scorer to an already-sorted annotated sequence leaves it unchanged
(manager.py lines 330-362). -/
theorem composite_scorer_stable_sort (now : Int) (l : List Hit) :
    List.Perm (apply_composite_scoring now l) (l.map (annotate now))
    ∧ (apply_composite_scoring now l).Pairwise scoreGE
    ∧ (∀ s : ℚ, (apply_composite_scoring now l).filter (pkey s)
        = (l.map (annotate now)).filter (pkey s))
    ∧ ((l.map (annotate now)).Pairwise scoreGE →
        apply_composite_scoring now l = l.map (annotate now)) := by
  refine ⟨?_, ?_, ?_, ?_⟩
  · simp only [apply_composite_scoring, sortByCompositeDesc]
    simpa using sortAux_perm (l.map (annotate now)) []
  · exact sortAux_sorted (l.map (annotate now)) [] List.Pairwise.nil
  · intro s
    simp only [apply_composite_scoring, sortByCompositeDesc]
    simpa using sortAux_filter s (l.map (annotate now)) [] List.Pairwise.nil
  · intro hs
    simp only [apply_composite_scoring, sortByCompositeDesc]
    simpa using sortAux_sorted_id (l.map (annotate now)) [] List.Pairwise.nil hs
      (by simp)

/-- Witness for C6: on a concrete already-sorted singleton input the scorer
returns the annotated input unchanged. -/
theorem composite_scorer_stable_sort_witness :
    apply_composite_scoring 0 [⟨some 1, none, 0⟩]
      = [Hit.mk (some 1) none 0].map (annotate 0) :=
  (composite_scorer_stable_sort 0 [⟨some 1, none, 0⟩]).2.2.2 (by simp)

/-- C7: holding a hit's relevance score and created_at fixed, increasing
access_count strictly increases composite_score while access_count stays at
most 10, and once both counts are at least 10 the composite_score is
unchanged (saturation of min(1, access_count/10), manager.py lines 346-355). -/
theorem composite_scorer_access_monotone (now : Int) (sc : Option ℚ)
    (cr : Option Int) (a b : Nat) :
    (a < b → b ≤ 10 →
      composite_score_of now ⟨sc, cr, a⟩ < composite_score_of now ⟨sc, cr, b⟩)
    ∧ (10 ≤ a → 10 ≤ b →
      composite_score_of now ⟨sc, cr, a⟩ = composite_score_of now ⟨sc, cr, b⟩) := by
  have hrel : relevance_score ⟨sc, cr, a⟩ = relevance_score ⟨sc, cr, b⟩ := rfl
  have hrec : recency_score now ⟨sc, cr, a⟩ = recency_score now ⟨sc, cr, b⟩ := rfl
  constructor
  · intro hab hb10
    have hab' : (a : ℚ) < (b : ℚ) := by exact_mod_cast hab
    have ha' : (a : ℚ) ≤ 10 := by exact_mod_cast le_of_lt (lt_of_lt_of_le hab hb10)
    have hb' : (b : ℚ) ≤ 10 := by exact_mod_cast hb10
    have hfa : frequency_score ⟨sc, cr, a⟩ = (a : ℚ) / 10 := by
      simp only [frequency_score]
      exact min_eq_right ((div_le_one (by norm_num)).mpr ha')
    have hfb : frequency_score ⟨sc, cr, b⟩ = (b : ℚ) / 10 := by
      simp only [frequency_score]
      exact min_eq_right ((div_le_one (by norm_num)).mpr hb')
    unfold composite_score_of
    rw [hrel, hrec, hfa, hfb]
    have h1 : (1 : ℚ) / 5 * ((a : ℚ) / 10) < 1 / 5 * ((b : ℚ) / 10) := by linarith
    linarith
  · intro h10a h10b
    have ha' : (10 : ℚ) ≤ (a : ℚ) := by exact_mod_cast h10a
    have hb' : (10 : ℚ) ≤ (b : ℚ) := by exact_mod_cast h10b
    have hfa : frequency_score ⟨sc, cr, a⟩ = 1 := by
      simp only [frequency_score]
      refine min_eq_left ?_
      rw [le_div_iff₀ (by norm_num)]
      linarith
    have hfb : frequency_score ⟨sc, cr, b⟩ = 1 := by
      simp only [frequency_score]
      refine min_eq_left ?_
      rw [le_div_iff₀ (by norm_num)]
      linarith
    unfold composite_score_of
    rw [hrel, hrec, hfa, hfb]

/-- Witness for C7: a concrete strict increase (3 → 4 accesses) and a
concrete saturation (10 → 12 accesses). -/
theorem composite_scorer_access_monotone_witness :
    composite_score_of 0 ⟨some 1, none, 3⟩ < composite_score_of 0 ⟨some 1, none, 4⟩
    ∧ composite_score_of 0 ⟨some 1, none, 10⟩
        = composite_score_of 0 ⟨some 1, none, 12⟩ :=
  ⟨(composite_scorer_access_monotone 0 (some 1) none 3 4).1 (by decide) (by decide),
   (composite_scorer_access_monotone 0 (some 1) none 10 12).2 (by decide) (by decide)⟩

/-- C10: for a hit whose relevance score lies in [0,1] and whose created_at
is not later than now, the composite score lies in [0,1]; and without the
not-in-the-future precondition the bound fails, because the recency term
1 − age_days/30 has no upper clamp (manager.py lines 333-357). -/
theorem composite_scorer_bounds :
    (∀ (now : Int) (h : Hit), 0 ≤ relevance_score h → relevance_score h ≤ 1 →
      (∀ c, h.created_at = some c → c ≤ now) →
      0 ≤ composite_score_of now h ∧ composite_score_of now h ≤ 1)
    ∧ (∃ (now : Int) (h : Hit), 0 ≤ relevance_score h ∧ relevance_score h ≤ 1
        ∧ 1 < composite_score_of now h) := by
  constructor
  · intro now h h0 h1 hc
    have hrec0 : 0 ≤ recency_score now h := by
      unfold recency_score
      cases h.created_at with
      | none => norm_num
      | some c => exact le_max_left 0 _
    have hrec1 : recency_score now h ≤ 1 := by
      unfold recency_score
      cases hcr : h.created_at with
      | none => norm_num
      | some c =>
        have hd : 0 ≤ ageDays now c :=
          Int.fdiv_nonneg (Int.sub_nonneg.mpr (hc c hcr)) (by norm_num)
        have hd' : (0 : ℚ) ≤ (ageDays now c : ℚ) := by exact_mod_cast hd
        refine max_le (by norm_num) ?_
        have : (0 : ℚ) ≤ (ageDays now c : ℚ) / 30 := by positivity
        linarith
    have hf0 : 0 ≤ frequency_score h := by
      unfold frequency_score
      exact le_min (by norm_num) (by positivity)
    have hf1 : frequency_score h ≤ 1 := min_le_left 1 _
    unfold composite_score_of
    constructor <;> linarith
  · refine ⟨0, ⟨some 1, some 5184000, 0⟩, ?_, ?_, ?_⟩
    · simp [relevance_score]
    · simp [relevance_score]
    · have hfd : Int.fdiv (0 - 5184000) 86400 = -60 := by decide
      have hmax : max (0 : ℚ) (1 - (-60 : Int) / 30) = 3 := by
        rw [max_eq_right] <;> norm_num
      simp only [composite_score_of, relevance_score, recency_score,
        frequency_score, ageDays, hfd, Option.getD_some]
      rw [hmax]
      norm_num

/-- Witness for C10: concrete bounds check at relevance 1, created_at in the
past, access_count 0. -/
theorem composite_scorer_bounds_witness :
    0 ≤ composite_score_of 5 ⟨some 1, some 0, 0⟩
    ∧ composite_score_of 5 ⟨some 1, some 0, 0⟩ ≤ 1 :=
  composite_scorer_bounds.1 5 ⟨some 1, some 0, 0⟩ (by simp [relevance_score])
    (by simp [relevance_score]) (by intro c hc; simp at hc; omega)

/-!
Part 2 embeds the unified Memory Coordinator
(`backend/app/memory/unified_manager.py`).

Modelling conventions:
* JSON payload values are the inductive `JValue`; a payload dict is an
  association list with distinct keys, looked up by `dictGet`.
* `datetime.fromisoformat(ts.replace("Z", "+00:00"))` succeeding is
  modelled by the environment predicate `isoOk : String → Bool` carried in
  the `World` (the parser is Python stdlib, outside this repository);
  calling `.replace` on a non-string raises `AttributeError`, which the
  validator converts into a `JSONContractViolation`, so a non-string
  timestamp always fails validation.
* The Supabase client and the Mem0 client are external collaborators.
  Their data is modelled by `Supa` (tables as row lists, insert ids from
  `nextId`) and `Mem0State` (entries plus `searchAnswer`, the
  provider-chosen result list for a search call).  A run-time failure
  ("the call raises") of an individual store operation is injected through
  the `Faults` record carried by the `World`; an absent client is
  `Option.none`.  The `timestamp` column of a `memory_logs` row is filled
  by the store at insert time (database default `now()`), modelled by
  `World.now`; `lt("timestamp", cutoff.isoformat())` compares ISO-8601 UTC
  strings, which orders exactly like the underlying instants, so it is
  modelled as integer `<`.
* Each operation returns the final `World`, the list of store-write events
  it performed in order (`Ev`), and an `Except MemErr` result; a Python
  exception escaping the method is `Except.error`, a normal return is
  `Except.ok`, and a `World` returned with an error is the state after the
  writes performed before (and during the handling of) the failure.
-/

/-- A JSON value as carried in memory-write payloads. -/
inductive JValue where
  | str (s : String)
  | num (n : Int)
  | list (elems : List JValue)
  | dict (entries : List (String × JValue))
  | null
deriving Repr

/-- Python `d.get(k)` on a dict modelled as an association list. -/
def dictGet (es : List (String × JValue)) (k : String) : Option JValue :=
  (es.find? (fun e => e.1 == k)).map (fun e => e.2)

/-- Python truthiness of a `JValue` (used by `agent_name or "unknown"`). -/
def truthy : JValue → Bool
  | .str s => !s.isEmpty
  | .num n => n != 0
  | .list xs => !xs.isEmpty
  | .dict es => !es.isEmpty
  | .null => false

/-- `agent_name or "unknown"` (unified_manager.py line 317). -/
def orUnknown (v : JValue) : JValue := if truthy v then v else .str "unknown"

mutual
/-- Python `repr` of a `JValue` (for `str(...)` of non-string values). -/
def pyRepr : JValue → String
  | .null => "None"
  | .num n => toString n
  | .str s => "\x27" ++ s ++ "\x27"
  | .list xs => "[" ++ pyReprElems xs ++ "]"
  | .dict es => "\x7b" ++ pyReprEntries es ++ "\x7d"

def pyReprElems : List JValue → String
  | [] => ""
  | [x] => pyRepr x
  | x :: xs => pyRepr x ++ ", " ++ pyReprElems xs

def pyReprEntries : List (String × JValue) → String
  | [] => ""
  | [(k, v)] => "\x27" ++ k ++ "\x27: " ++ pyRepr v
  | (k, v) :: es => "\x27" ++ k ++ "\x27: " ++ pyRepr v ++ ", " ++ pyReprEntries es
end

/-- Python `str(...)` of a `JValue` (content stringification in
`write_memory`, unified_manager.py line 505). -/
def pyStr : JValue → String
  | .str s => s
  | v => pyRepr v

/-- Exceptions escaping a coordinator method: `JSONContractViolation`
(re-raised unwrapped) or `MemoryManagerError` (the wrap-and-raise in each
method's outer `except`). -/
inductive MemErr where
  | contract (msg : String)
  | manager (msg : String)
deriving Repr, DecidableEq

/-- `validate_jsoncontract` (unified_manager.py lines 91-119): required
fields checked in order, then the timestamp parse, then the content-shape
check.  `isoOk` is the environment's `datetime.fromisoformat` oracle. -/
def validate_jsoncontract (isoOk : String → Bool)
    (payload : List (String × JValue)) : Except String Unit :=
  match dictGet payload "timestamp" with
  | none => .error "Missing required field: timestamp"
  | some ts =>
    if (dictGet payload "agent").isNone then .error "Missing required field: agent"
    else if (dictGet payload "session_id").isNone then
      .error "Missing required field: session_id"
    else if (dictGet payload "type").isNone then .error "Missing required field: type"
    else if (dictGet payload "content").isNone then
      .error "Missing required field: content"
    else
      match ts with
      | .str s =>
        if isoOk s then
          match dictGet payload "content" with
          | some (.dict _) => .ok ()
          | _ => .error "\x27content\x27 must be a dictionary"
        else .error "Invalid timestamp format"
      | _ => .error "Invalid timestamp format"

/-- A row of the `sessions` table. -/
structure SessionRow where
  id : Nat
  session_id : String
  user_id : Option String
  agent_name : JValue
  status : String
deriving Repr

/-- A row of the `memory_logs` table (the structured memory log).  The
`timestamp` column is assigned by the store at insert time. -/
structure MemLogRow where
  id : Nat
  user_id : String
  session_id : Nat
  agent_name : JValue
  operation_type : String
  memory_type : String
  content : String
  tags : List String
  metadata : List (String × JValue)
  vector_id : Option Nat
  timestamp : Int
deriving Repr

/-- A row of the `audit_logs` table (only the fields the claims inspect). -/
structure AuditRow where
  user_id : String
  event_type : String
deriving Repr, DecidableEq

/-- A row of the `goal_assessments` table (read-only for the core). -/
structure GoalRow where
  user_id : String
  session_id : String
  status : String
deriving Repr

/-- A row of the `belief_graphs` table (read-only for the core). -/
structure BeliefRow where
  user_id : String
  session_id : String
deriving Repr

/-- The Supabase-side state: the tables the coordinator touches and the
store's id counter for inserted rows. -/
structure Supa where
  sessions : List SessionRow
  memory_logs : List MemLogRow
  audit_logs : List AuditRow
  goals : List GoalRow
  beliefs : List BeliefRow
  nextId : Nat
deriving Repr

/-- A Mem0 vector entry created by `mem0.add`. -/
structure Mem0Entry where
  id : Nat
  content : String
  user_id : String
  metadata : List (String × JValue)
deriving Repr

/-- One hit returned by `mem0.search`, possibly enriched with its
structured row under the `supabase_data` key. -/
structure RecallHit where
  id : Option Nat
  supabase_data : Option MemLogRow := none
deriving Repr

/-- The Mem0-side state: stored entries, the id the next `add` returns, and
the provider-chosen answer list for a `search` call. -/
structure Mem0State where
  entries : List Mem0Entry
  nextId : Nat
  searchAnswer : List RecallHit
deriving Repr

/-- Fault injection for the external stores: a `true` flag makes the
corresponding store call raise at its call site. -/
structure Faults where
  selSessionById : Bool
  insSession : Bool
  selSessionAll : Bool
  insMemLog : Bool
  delMemLog : Bool
  insAudit : Bool
  selGoals : Bool
  selBeliefs : Bool
  selMemLogByVec : Bool
  addVec : Bool
  searchVec : Bool
deriving Repr

/-- The world a coordinator call runs in: the two optional store clients,
the fault environment, the current UTC instant (seconds) and the
ISO-timestamp parse oracle. -/
structure World where
  supabase : Option Supa
  mem0 : Option Mem0State
  faults : Faults
  now : Int
  isoOk : String → Bool

/-- Store-write events, in the order the coordinator performs them. -/
inductive Ev where
  | sessionInsert (id : Nat)
  | mem0Add (id : Nat)
  | memLogInsert (row : MemLogRow)
  | auditInsert
deriving Repr

/-- The user's structured memory rows (empty when Supabase is absent). -/
def memLogsOf (w : World) : List MemLogRow :=
  match w.supabase with
  | some sb => sb.memory_logs
  | none => []

/-- The audit rows (empty when Supabase is absent). -/
def auditLogsOf (w : World) : List AuditRow :=
  match w.supabase with
  | some sb => sb.audit_logs
  | none => []

/-- `MemoryManager.resolve_session_uuid` (unified_manager.py lines 280-333):
look up the session by external id, create it with status "active" if
absent; any store failure is caught inside and yields `none`. -/
def resolve_session_uuid (w : World) (session_id : String)
    (user_id : Option String) (agent_name : JValue) :
    World × List Ev × Option Nat :=
  match w.supabase with
  | none => (w, [], none)
  | some sb =>
    if w.faults.selSessionById then (w, [], none)
    else
      match sb.sessions.find? (fun r => r.session_id == session_id) with
      | some r => (w, [], some r.id)
      | none =>
        if w.faults.insSession then (w, [], none)
        else
          ({ w with supabase := some { sb with
              sessions := sb.sessions
                ++ [⟨sb.nextId, session_id, user_id, orUnknown agent_name, "active"⟩],
              nextId := sb.nextId + 1 } },
           [Ev.sessionInsert sb.nextId], some sb.nextId)

/-- `MemoryManager.log_event` (unified_manager.py lines 690-742) at the call
sites the claims cover (none of which pass a `session_id`): skip when
Supabase is absent, swallow its own insert failure, otherwise append an
audit row. -/
def log_event (w : World) (user_id event_type : String) : World × List Ev :=
  match w.supabase with
  | none => (w, [])
  | some sb =>
    if w.faults.insAudit then (w, [])
    else
      ({ w with supabase := some { sb with
          audit_logs := sb.audit_logs ++ [⟨user_id, event_type⟩] } },
       [Ev.auditInsert])

/-- The `mem0.add` step of `write_memory` (unified_manager.py lines
516-540): failure is caught locally and leaves the id `none`. -/
def mem0_write (w : World) (user_id content_text : String)
    (meta : List (String × JValue)) : World × List Ev × Option Nat :=
  match w.mem0 with
  | none => (w, [], none)
  | some m =>
    if w.faults.addVec then (w, [], none)
    else
      ({ w with mem0 := some { m with
          entries := m.entries ++ [⟨m.nextId, content_text, user_id, meta⟩],
          nextId := m.nextId + 1 } },
       [Ev.mem0Add m.nextId], some m.nextId)

/-- The metadata dict passed to `mem0.add` (unified_manager.py lines
518-525). -/
def mem0Metadata (user_id session_id : String) (agent_name : JValue)
    (memory_type : String) (tags : List String)
    (payload : List (String × JValue)) : List (String × JValue) :=
  [("user_id", .str user_id), ("session_id", .str session_id),
   ("agent_name", agent_name), ("memory_type", .str memory_type),
   ("tags", .list (tags.map JValue.str)),
   ("timestamp", (dictGet payload "timestamp").getD .null)]

/-- The result dict of `write_memory` (ids of the two store writes). -/
structure WriteResult where
  user_id : String
  session_id : String
  memory_type : String
  supabase_id : Option Nat
  mem0_id : Option Nat
deriving Repr

/-- The Supabase-insert-and-audit tail of `write_memory` (unified_manager.py
lines 542-591): insert the structured row only when both the client and the
resolved session uuid are present; a failure of this insert is NOT caught
locally — the outer handler logs an audit event and re-raises as
`MemoryManagerError`. -/
def write_finish (w2 : World) (session_uuid mem0_id : Option Nat)
    (user_id session_id : String) (payload : List (String × JValue))
    (agent_name : JValue) (memory_type : String) (tags : List String)
    (content_text : String) : World × List Ev × Except MemErr WriteResult :=
  match w2.supabase, session_uuid with
  | some sb, some suuid =>
    if w2.faults.insMemLog then
      let r := log_event w2 user_id "memory_write_error"
      (r.1, r.2, .error (.manager "Failed to write memory"))
    else
      let row : MemLogRow :=
        ⟨sb.nextId, user_id, suuid, agent_name, "write", memory_type,
         content_text, tags, payload, mem0_id, w2.now⟩
      let w3 : World := { w2 with supabase := some { sb with
          memory_logs := sb.memory_logs ++ [row], nextId := sb.nextId + 1 } }
      let r := log_event w3 user_id "memory_written"
      (r.1, Ev.memLogInsert row :: r.2,
       .ok ⟨user_id, session_id, memory_type, some sb.nextId, mem0_id⟩)
  | _, _ =>
    let r := log_event w2 user_id "memory_written"
    (r.1, r.2, .ok ⟨user_id, session_id, memory_type, none, mem0_id⟩)

/-- `MemoryManager.write_memory` (unified_manager.py lines 458-591):
validate the payload, resolve the session, write the vector entry first,
then the structured row (carrying the vector id), then the audit event. -/
def write_memory (w : World) (user_id session_id : String)
    (payload : List (String × JValue)) (memory_type : String)
    (tags : List String) : World × List Ev × Except MemErr WriteResult :=
  match validate_jsoncontract w.isoOk payload with
  | .error m => (w, [], .error (.contract m))
  | .ok _ =>
    let content_text := pyStr ((dictGet payload "content").getD (.str ""))
    let agent_name := (dictGet payload "agent").getD (.str "unknown")
    let r1 := resolve_session_uuid w session_id (some user_id) agent_name
    let r2 := mem0_write r1.1 user_id content_text
      (mem0Metadata user_id session_id agent_name memory_type tags payload)
    let r3 := write_finish r2.1 r1.2.2 r2.2.2 user_id session_id payload
      agent_name memory_type tags content_text
    (r3.1, r1.2.1 ++ r2.2.1 ++ r3.2.1, r3.2.2)

/-- The `ContextSnapshot` dict returned by `load_context`. -/
structure ContextSnapshot where
  user_id : String
  session_id : String
  agent_name : Option String
  session : Option SessionRow
  recent_memories : List RecallHit
  goals : List GoalRow
  beliefs : List BeliefRow
deriving Repr

/-- The Mem0 step of `load_context` (unified_manager.py lines 394-413): its
failure is caught locally, leaving `recent_memories` empty. -/
def load_recent (w : World) (max_memories : Nat) : List RecallHit :=
  match w.mem0 with
  | none => []
  | some m => if w.faults.searchVec then [] else m.searchAnswer.take max_memories

/-- The outer `except` of `load_context` (unified_manager.py lines 449-456):
best-effort audit event, then `MemoryManagerError`. -/
def load_fail (w : World) (user_id : String) :
    World × Except MemErr ContextSnapshot :=
  ((log_event w user_id "context_load_error").1,
   .error (.manager "Failed to load context"))

/-- `MemoryManager.load_context` (unified_manager.py lines 339-456): fetch
the session row, recent vector memories, active goals and beliefs.  Only
the Mem0 fetch is wrapped in its own try/except; a failing Supabase select
escapes to the outer handler, which logs an audit error event and raises
`MemoryManagerError`. -/
def load_context (w : World) (user_id session_id : String)
    (agent_name : Option String) (include_goals include_beliefs : Bool)
    (max_memories : Nat) : World × Except MemErr ContextSnapshot :=
  match w.supabase with
  | some sb =>
    if w.faults.selSessionAll then load_fail w user_id
    else
      let session := (sb.sessions.filter (fun r => r.session_id == session_id)).head?
      let recent := load_recent w max_memories
      if include_goals && w.faults.selGoals then load_fail w user_id
      else
        let goals := if include_goals then
            sb.goals.filter (fun g =>
              g.user_id == user_id && g.session_id == session_id && g.status == "active")
          else []
        if include_beliefs && w.faults.selBeliefs then load_fail w user_id
        else
          let beliefs := if include_beliefs then
              sb.beliefs.filter (fun b =>
                b.user_id == user_id && b.session_id == session_id)
            else []
          ((log_event w user_id "context_loaded").1,
           .ok ⟨user_id, session_id, agent_name, session, recent, goals, beliefs⟩)
  | none =>
    let recent := load_recent w max_memories
    ((log_event w user_id "context_loaded").1,
     .ok ⟨user_id, session_id, agent_name, none, recent, [], []⟩)

/-- Supabase enrichment of one recall hit (unified_manager.py lines
649-657): join the structured row by `vector_id`. -/
def enrich (sb : Supa) (hit : RecallHit) : RecallHit :=
  match hit.id with
  | some i =>
    { hit with supabase_data := sb.memory_logs.find? (fun row => row.vector_id == some i) }
  | none => hit

/-- `MemoryManager.recall_memory` (unified_manager.py lines 593-688): vector
search with optional structured enrichment.  An absent Mem0 client returns
`[]` immediately; ANY exception inside is caught by the outer handler,
which logs a best-effort audit event and returns `[]` — the method never
raises. -/
def recall_memory (w : World) (user_id query : String)
    (session_id agent_name : Option String) (tags : Option (List String))
    (limit : Nat) : World × Except MemErr (List RecallHit) :=
  match w.mem0 with
  | none => (w, .ok [])
  | some m =>
    if w.faults.searchVec then
      ((log_event w user_id "memory_recall_error").1, .ok [])
    else
      let memories := m.searchAnswer.take limit
      match w.supabase with
      | some sb =>
        if memories.isEmpty then
          ((log_event w user_id "memory_recalled").1, .ok memories)
        else if w.faults.selMemLogByVec && memories.any (fun h => h.id.isSome) then
          ((log_event w user_id "memory_recall_error").1, .ok [])
        else
          ((log_event w user_id "memory_recalled").1, .ok (memories.map (enrich sb)))
      | none =>
        ((log_event w user_id "memory_recalled").1, .ok memories)

/-- The row predicate of the `decay_memory` delete query (unified_manager.py
lines 779-782): the user's rows strictly older than the cutoff, optionally
filtered by memory kind. -/
def decayMatches (user_id : String) (cutoff : Int) (memory_type : Option String)
    (r : MemLogRow) : Bool :=
  r.user_id == user_id && decide (r.timestamp < cutoff)
    && (match memory_type with
        | some mt => r.memory_type == mt
        | none => true)

/-- `MemoryManager.decay_memory` (unified_manager.py lines 744-833): delete
the user's structured rows older than `now - threshold_days`; the Mem0
branch is a no-op (the provider delete is commented out), so
`mem0_deleted` stays 0; only a failing structured delete escapes (audit
event, then `MemoryManagerError`). -/
def decay_memory (w : World) (user_id : String) (threshold_days : Nat)
    (memory_type : Option String) : World × Except MemErr (Nat × Nat) :=
  let cutoff := w.now - (threshold_days : Int) * 86400
  match w.supabase with
  | some sb =>
    if w.faults.delMemLog then
      ((log_event w user_id "memory_decay_error").1,
       .error (.manager "Failed to decay memory"))
    else
      let deleted := sb.memory_logs.filter (decayMatches user_id cutoff memory_type)
      let w1 : World := { w with supabase := some { sb with
          memory_logs :=
            sb.memory_logs.filter (fun r => !decayMatches user_id cutoff memory_type r) } }
      ((log_event w1 user_id "memory_decayed").1, .ok (deleted.length, 0))
  | none => (w, .ok (0, 0))

/-- Is this event a vector-store write? -/
def isVecAdd : Ev → Bool
  | .mem0Add _ => true
  | _ => false

/-- Is this event a structured memory-log insert? -/
def isLogInsert : Ev → Bool
  | .memLogInsert _ => true
  | _ => false

/-- No vector-store write occurs in the list. -/
def noVecAdd (l : List Ev) : Bool := l.all (fun e => !isVecAdd e)

/-- Every vector-store write precedes every structured memory-log insert:
once a memory-log insert has happened, no vector write follows. -/
def vecBeforeLog : List Ev → Bool
  | [] => true
  | e :: rest => if isLogInsert e then noVecAdd rest else vecBeforeLog rest

theorem log_event_ev (w : World) (u t : String) :
    (log_event w u t).2 = [] ∨ (log_event w u t).2 = [Ev.auditInsert] := by
  unfold log_event
  cases w.supabase with
  | none => left; rfl
  | some sb =>
    by_cases h : w.faults.insAudit
    · left; simp [h]
    · right; simp [h]

theorem log_event_memLogs (w : World) (u t : String) :
    memLogsOf (log_event w u t).1 = memLogsOf w := by
  unfold log_event memLogsOf
  cases hsb : w.supabase with
  | none => simp [hsb]
  | some sb =>
    by_cases h : w.faults.insAudit <;> simp [hsb, h]

theorem log_event_noVec (w : World) (u t : String) :
    noVecAdd (log_event w u t).2 = true := by
  rcases log_event_ev w u t with hev | hev <;> rw [hev] <;> rfl

theorem log_event_noLog (w : World) (u t : String) (row : MemLogRow) :
    Ev.memLogInsert row ∉ (log_event w u t).2 := by
  rcases log_event_ev w u t with hev | hev <;> rw [hev] <;> simp

theorem log_event_audit (w : World) (u t : String) (sb : Supa)
    (hsb : w.supabase = some sb) (hf : w.faults.insAudit = false) :
    auditLogsOf (log_event w u t).1 = sb.audit_logs ++ [⟨u, t⟩] := by
  unfold log_event auditLogsOf
  simp [hsb, hf]

theorem resolve_cases (w : World) (sid : String) (uid : Option String)
    (ag : JValue) :
    (∃ s, resolve_session_uuid w sid uid ag = (w, [], s)
       ∧ (s.isSome = true → w.supabase.isSome = true)) ∨
    (∃ sb, w.supabase = some sb
       ∧ resolve_session_uuid w sid uid ag =
         ({ w with supabase := some { sb with
              sessions := sb.sessions
                ++ [⟨sb.nextId, sid, uid, orUnknown ag, "active"⟩],
              nextId := sb.nextId + 1 } },
          [Ev.sessionInsert sb.nextId], some sb.nextId)) := by
  unfold resolve_session_uuid
  cases hsb : w.supabase with
  | none => exact Or.inl ⟨none, rfl, by simp⟩
  | some sb =>
    by_cases hf : w.faults.selSessionById
    · exact Or.inl ⟨none, by simp [hf], by simp⟩
    · cases hfind : sb.sessions.find? (fun r => r.session_id == sid) with
      | some r =>
        exact Or.inl ⟨some r.id, by simp [hf, hfind], fun _ => by simp [hsb]⟩
      | none =>
        by_cases hf2 : w.faults.insSession
        · exact Or.inl ⟨none, by simp [hf, hfind, hf2], by simp⟩
        · exact Or.inr ⟨sb, rfl, by simp [hf, hfind, hf2]⟩

theorem mem0_write_cases (w : World) (uid ct : String)
    (meta : List (String × JValue)) :
    (mem0_write w uid ct meta = (w, [], none)) ∨
    (∃ m, w.mem0 = some m ∧ mem0_write w uid ct meta =
      ({ w with mem0 := some { m with
          entries := m.entries ++ [⟨m.nextId, ct, uid, meta⟩],
          nextId := m.nextId + 1 } },
       [Ev.mem0Add m.nextId], some m.nextId)) := by
  unfold mem0_write
  cases hm : w.mem0 with
  | none => exact Or.inl rfl
  | some m =>
    by_cases hf : w.faults.addVec
    · exact Or.inl (by simp [hf])
    · exact Or.inr ⟨m, rfl, by simp [hf]⟩

theorem write_finish_ok (w2 : World) (su mi : Option Nat)
    (uid sid : String) (payload : List (String × JValue)) (ag : JValue)
    (mt : String) (tags : List String) (ct : String) (r : WriteResult)
    (h : (write_finish w2 su mi uid sid payload ag mt tags ct).2.2 = .ok r) :
    r.mem0_id = mi
    ∧ noVecAdd (write_finish w2 su mi uid sid payload ag mt tags ct).2.1 = true
    ∧ (∀ row, Ev.memLogInsert row ∈
        (write_finish w2 su mi uid sid payload ag mt tags ct).2.1 →
        row.vector_id = mi)
    ∧ ((∃ row, Ev.memLogInsert row ∈
        (write_finish w2 su mi uid sid payload ag mt tags ct).2.1)
       ↔ (w2.supabase.isSome = true ∧ su.isSome = true)) := by
  unfold write_finish at h ⊢
  cases hsb : w2.supabase with
  | none =>
    simp only [hsb] at h ⊢
    have hr : (⟨uid, sid, mt, none, mi⟩ : WriteResult) = r := by simpa using h
    subst hr
    refine ⟨rfl, log_event_noVec w2 uid "memory_written", ?_, ?_⟩
    · intro row hrow
      exact absurd hrow (log_event_noLog w2 uid "memory_written" row)
    · constructor
      · rintro ⟨row, hrow⟩
        exact absurd hrow (log_event_noLog w2 uid "memory_written" row)
      · rintro ⟨h1, h2⟩
        simp at h1
  | some sb =>
    cases hsu : su with
    | none =>
      simp only [hsb, hsu] at h ⊢
      have hr : (⟨uid, sid, mt, none, mi⟩ : WriteResult) = r := by simpa using h
      subst hr
      refine ⟨rfl, log_event_noVec w2 uid "memory_written", ?_, ?_⟩
      · intro row hrow
        exact absurd hrow (log_event_noLog w2 uid "memory_written" row)
      · constructor
        · rintro ⟨row, hrow⟩
          exact absurd hrow (log_event_noLog w2 uid "memory_written" row)
        · rintro ⟨h1, h2⟩
          simp at h2
    | some suuid =>
      by_cases hf : w2.faults.insMemLog
      · simp only [hsb, hsu, hf, if_true] at h
        exact absurd h (by simp)
      · simp only [hsb, hsu, hf, Bool.false_eq_true, if_false] at h ⊢
        have hr : (⟨uid, sid, mt, some sb.nextId, mi⟩ : WriteResult) = r := by
          simpa using h
        subst hr
        refine ⟨rfl, ?_, ?_, ?_⟩
        · simp only [noVecAdd, List.all_cons, Bool.and_eq_true]
          exact ⟨rfl, log_event_noVec _ uid "memory_written"⟩
        · intro row hrow
          rcases List.mem_cons.mp hrow with heq | hmem
          · cases heq
            rfl
          · exact absurd hmem (log_event_noLog _ uid "memory_written" row)
        · constructor
          · intro _
            simp
          · intro _
            exact ⟨_, List.mem_cons_self _ _⟩

theorem vecBeforeLog_of_noVec (l : List Ev) (h : noVecAdd l = true) :
    vecBeforeLog l = true := by
  induction l with
  | nil => rfl
  | cons e rest ih =>
    have he : (!isVecAdd e) = true := by
      have := (List.all_eq_true.mp h) e (List.mem_cons_self e rest)
      simpa using this
    have hrest : noVecAdd rest = true := by
      refine List.all_eq_true.mpr ?_
      intro x hx
      exact (List.all_eq_true.mp h) x (List.mem_cons_of_mem e hx)
    unfold vecBeforeLog
    by_cases hl : isLogInsert e
    · simp [hl, hrest]
    · simp [hl, ih hrest]

theorem vecBeforeLog_append (l₁ l₂ : List Ev)
    (h₁ : l₁.all (fun e => !isLogInsert e) = true) (h₂ : noVecAdd l₂ = true) :
    vecBeforeLog (l₁ ++ l₂) = true := by
  induction l₁ with
  | nil => simpa using vecBeforeLog_of_noVec l₂ h₂
  | cons e rest ih =>
    have he : isLogInsert e = false := by
      have := (List.all_eq_true.mp h₁) e (List.mem_cons_self e rest)
      simpa using this
    have hrest : rest.all (fun e => !isLogInsert e) = true := by
      refine List.all_eq_true.mpr ?_
      intro x hx
      exact (List.all_eq_true.mp h₁) x (List.mem_cons_of_mem e hx)
    simpa [vecBeforeLog, he] using ih hrest

theorem validate_ok_shape (isoOk : String → Bool)
    (payload : List (String × JValue))
    (h : validate_jsoncontract isoOk payload = .ok ()) :
    dictGet payload "agent" ≠ none
    ∧ dictGet payload "session_id" ≠ none
    ∧ dictGet payload "type" ≠ none
    ∧ (∃ es, dictGet payload "content" = some (.dict es))
    ∧ (∃ s, dictGet payload "timestamp" = some (.str s) ∧ isoOk s = true) := by
  unfold validate_jsoncontract at h
  cases hts : dictGet payload "timestamp" with
  | none => rw [hts] at h; exact absurd h (by simp)
  | some ts =>
    simp only [hts] at h
    by_cases ha : (dictGet payload "agent").isNone
    · rw [if_pos ha] at h; exact absurd h (by simp)
    · rw [if_neg ha] at h
      by_cases hs : (dictGet payload "session_id").isNone
      · rw [if_pos hs] at h; exact absurd h (by simp)
      · rw [if_neg hs] at h
        by_cases hty : (dictGet payload "type").isNone
        · rw [if_pos hty] at h; exact absurd h (by simp)
        · rw [if_neg hty] at h
          by_cases hco : (dictGet payload "content").isNone
          · rw [if_pos hco] at h; exact absurd h (by simp)
          · rw [if_neg hco] at h
            cases ts with
            | num n => simp at h
            | list xs => simp at h
            | dict es => simp at h
            | null => simp at h
            | str s =>
              by_cases hiso : isoOk s = true
              · simp only [hiso, if_true] at h
                cases hcv : dictGet payload "content" with
                | none => rw [hcv] at h; exact absurd h (by simp)
                | some cv =>
                  rw [hcv] at h
                  cases cv with
                  | str s2 => exact absurd h (by simp)
                  | num n => exact absurd h (by simp)
                  | list xs => exact absurd h (by simp)
                  | null => exact absurd h (by simp)
                  | dict es =>
                    refine ⟨fun hn => ha (by simp [hn]),
                      fun hn => hs (by simp [hn]),
                      fun hn => hty (by simp [hn]),
                      ⟨es, rfl⟩, ⟨s, rfl, hiso⟩⟩
              · simp only [hiso, if_false] at h
                exact absurd h (by simp)

/-- C1: for every payload missing any of the keys
timestamp/agent/session_id/type/content, or whose content is not a
key-value mapping, or whose timestamp is not an ISO-8601-parseable string,
`write_memory` fails with a `JSONContractViolation` before any store is
touched — the world is returned unchanged and the store-event trace is
empty (no vector write, no structured write, no session creation;
unified_manager.py lines 91-119 and 485-493). -/
theorem write_memory_rejects_invalid (w : World) (uid sid : String)
    (payload : List (String × JValue)) (mt : String) (tags : List String)
    (hbad : dictGet payload "timestamp" = none
      ∨ dictGet payload "agent" = none
      ∨ dictGet payload "session_id" = none
      ∨ dictGet payload "type" = none
      ∨ dictGet payload "content" = none
      ∨ (∀ es, dictGet payload "content" ≠ some (.dict es))
      ∨ (∀ s, dictGet payload "timestamp" = some (.str s) → w.isoOk s = false)) :
    ∃ m, write_memory w uid sid payload mt tags = (w, [], .error (.contract m)) := by
  cases hv : validate_jsoncontract w.isoOk payload with
  | error m =>
    refine ⟨m, ?_⟩
    unfold write_memory
    rw [hv]
  | ok u =>
    cases u
    obtain ⟨hA, hS, hT, ⟨es, hco⟩, ⟨s, hts, hiso⟩⟩ :=
      validate_ok_shape w.isoOk payload hv
    rcases hbad with hb | hb | hb | hb | hb | hb | hb
    · rw [hts] at hb; exact absurd hb (by simp)
    · exact absurd hb hA
    · exact absurd hb hS
    · exact absurd hb hT
    · rw [hco] at hb; exact absurd hb (by simp)
    · exact absurd hco (hb es)
    · have hf := hb s hts
      rw [hiso] at hf
      exact absurd hf (by simp)

/-- The all-clear fault environment used by concrete witness worlds. -/
def F0 : Faults := ⟨false, false, false, false, false, false, false, false, false, false, false⟩

/-- A world with neither store configured. -/
def W0 : World := ⟨none, none, F0, 0, fun _ => true⟩

/-- A payload missing the required "agent" key. -/
def P0 : List (String × JValue) :=
  [("timestamp", .str "2024-01-01T00:00:00Z"), ("session_id", .str "s1"),
   ("type", .str "event"), ("content", .dict [])]

/-- Witness for C1: the concrete agent-less payload is rejected with no
store activity. -/
theorem write_memory_rejects_invalid_witness :
    ∃ m, write_memory W0 "u1" "s1" P0 "long_term" []
      = (W0, [], .error (.contract m)) :=
  write_memory_rejects_invalid W0 "u1" "s1" P0 "long_term" []
    (Or.inr (Or.inl rfl))

/-- C2: in every successful `write_memory` call the vector-store write
happens before the structured-store write (no vector add follows a
memory-log insert in the event trace), the structured row is inserted iff
session resolution returned an internal id, and that row carries the
vector store's assigned id (or empty when the vector write did not happen)
in its `vector_id` field, which also equals the returned `mem0_id`
(unified_manager.py lines 504-558). -/
theorem write_memory_vector_before_structured (w : World) (uid sid : String)
    (payload : List (String × JValue)) (mt : String) (tags : List String)
    (r : WriteResult)
    (h : (write_memory w uid sid payload mt tags).2.2 = .ok r) :
    vecBeforeLog (write_memory w uid sid payload mt tags).2.1 = true
    ∧ ((∃ row, Ev.memLogInsert row ∈ (write_memory w uid sid payload mt tags).2.1)
        ↔ (resolve_session_uuid w sid (some uid)
            ((dictGet payload "agent").getD (.str "unknown"))).2.2.isSome = true)
    ∧ (∀ row, Ev.memLogInsert row ∈ (write_memory w uid sid payload mt tags).2.1 →
        row.vector_id = r.mem0_id) := by
  cases hv : validate_jsoncontract w.isoOk payload with
  | error m =>
    rw [show (write_memory w uid sid payload mt tags)
        = (w, [], .error (.contract m)) from by unfold write_memory; rw [hv]] at h
    exact absurd h (by simp)
  | ok u =>
    cases u
    rcases resolve_cases w sid (some uid)
        ((dictGet payload "agent").getD (.str "unknown")) with
      ⟨s, hres, hsup⟩ | ⟨sb, hsb, hres⟩
    · rcases mem0_write_cases w uid
          (pyStr ((dictGet payload "content").getD (.str "")))
          (mem0Metadata uid sid ((dictGet payload "agent").getD (.str "unknown"))
            mt tags payload) with hm | ⟨m, hm0, hm⟩
      · simp only [write_memory, hv, hres, hm, List.nil_append] at h ⊢
        obtain ⟨hmem0, hnv, hrv, hli⟩ := write_finish_ok _ _ _ _ _ _ _ _ _ _ r h
        refine ⟨vecBeforeLog_of_noVec _ hnv, ?_, ?_⟩
        · rw [hli]
          constructor
          · exact fun ⟨_, h2⟩ => h2
          · exact fun h2 => ⟨hsup h2, h2⟩
        · intro row hrow
          rw [hmem0]
          exact hrv row hrow
      · simp only [write_memory, hv, hres, hm, List.nil_append,
          List.singleton_append] at h ⊢
        obtain ⟨hmem0, hnv, hrv, hli⟩ := write_finish_ok _ _ _ _ _ _ _ _ _ _ r h
        refine ⟨?_, ?_, ?_⟩
        · exact vecBeforeLog_append [Ev.mem0Add m.nextId] _ rfl hnv
        · rw [show (∃ row, Ev.memLogInsert row ∈ Ev.mem0Add m.nextId ::
              (write_finish { w with mem0 := some { m with
                  entries := m.entries ++ [⟨m.nextId,
                    pyStr ((dictGet payload "content").getD (.str "")), uid,
                    mem0Metadata uid sid ((dictGet payload "agent").getD (.str "unknown"))
                      mt tags payload⟩],
                  nextId := m.nextId + 1 } } s (some m.nextId) uid sid payload
                ((dictGet payload "agent").getD (.str "unknown")) mt tags
                (pyStr ((dictGet payload "content").getD (.str "")))).2.1)
            ↔ (∃ row, Ev.memLogInsert row ∈
              (write_finish { w with mem0 := some { m with
                  entries := m.entries ++ [⟨m.nextId,
                    pyStr ((dictGet payload "content").getD (.str "")), uid,
                    mem0Metadata uid sid ((dictGet payload "agent").getD (.str "unknown"))
                      mt tags payload⟩],
                  nextId := m.nextId + 1 } } s (some m.nextId) uid sid payload
                ((dictGet payload "agent").getD (.str "unknown")) mt tags
                (pyStr ((dictGet payload "content").getD (.str "")))).2.1)
            from by simp]
          rw [hli]
          constructor
          · exact fun ⟨_, h2⟩ => h2
          · intro h2
            refine ⟨?_, h2⟩
            have := hsup h2
            simpa using this
        · intro row hrow
          rw [hmem0]
          rcases List.mem_cons.mp hrow with heq | hmem
          · exact absurd heq (by simp)
          · exact hrv row hmem
    · rcases mem0_write_cases
          ({ w with supabase := some { sb with
              sessions := sb.sessions ++ [⟨sb.nextId, sid, some uid,
                orUnknown ((dictGet payload "agent").getD (.str "unknown")), "active"⟩],
              nextId := sb.nextId + 1 } }) uid
          (pyStr ((dictGet payload "content").getD (.str "")))
          (mem0Metadata uid sid ((dictGet payload "agent").getD (.str "unknown"))
            mt tags payload) with hm | ⟨m, hm0, hm⟩
      · simp only [write_memory, hv, hres, hm, List.nil_append,
          List.singleton_append] at h ⊢
        obtain ⟨hmem0, hnv, hrv, hli⟩ := write_finish_ok _ _ _ _ _ _ _ _ _ _ r h
        refine ⟨?_, ?_, ?_⟩
        · exact vecBeforeLog_append [Ev.sessionInsert sb.nextId] _ rfl hnv
        · simp only [List.mem_cons]
          rw [show ((some sb.nextId : Option Nat).isSome = true) ↔ True from by simp]
          simp only [iff_true]
          rcases hli.mpr (by simp) with ⟨row, hrow⟩
          exact ⟨row, Or.inr hrow⟩
        · intro row hrow
          rw [hmem0]
          rcases List.mem_cons.mp hrow with heq | hmem
          · exact absurd heq (by simp)
          · exact hrv row hmem
      · simp only [write_memory, hv, hres, hm, List.nil_append,
          List.singleton_append, List.cons_append] at h ⊢
        obtain ⟨hmem0, hnv, hrv, hli⟩ := write_finish_ok _ _ _ _ _ _ _ _ _ _ r h
        refine ⟨?_, ?_, ?_⟩
        · exact vecBeforeLog_append [Ev.sessionInsert sb.nextId, Ev.mem0Add m.nextId]
            _ rfl hnv
        · simp only [List.mem_cons]
          rw [show ((some sb.nextId : Option Nat).isSome = true) ↔ True from by simp]
          simp only [iff_true]
          rcases hli.mpr (by simp) with ⟨row, hrow⟩
          exact ⟨row, Or.inr (Or.inr hrow)⟩
        · intro row hrow
          rw [hmem0]
          rcases List.mem_cons.mp hrow with heq | hmem
          · exact absurd heq (by simp)
          · rcases List.mem_cons.mp hmem with heq2 | hmem2
            · exact absurd heq2 (by simp)
            · exact hrv row hmem2

/-- A Supabase state holding one session row for external id "s1". -/
def SB2 : Supa := ⟨[⟨0, "s1", some "u1", .str "agent", "active"⟩], [], [], [], [], 1⟩

/-- An empty Mem0 store. -/
def M2 : Mem0State := ⟨[], 0, []⟩

/-- A fully healthy world with both stores configured. -/
def CW2 : World := ⟨some SB2, some M2, F0, 0, fun _ => true⟩

/-- A JSONContract-compliant payload. -/
def P1 : List (String × JValue) :=
  [("timestamp", .str "2024-01-01T00:00:00Z"), ("agent", .str "financing"),
   ("session_id", .str "s1"), ("type", .str "event"),
   ("content", .dict [("text", .str "hello")])]

/-- The write result produced by `write_memory` on `CW2` and `P1`. -/
def R2 : WriteResult := ⟨"u1", "s1", "long_term", some 1, some 0⟩

/-- Witness for C2: a concrete successful dual-store write. -/
theorem write_memory_vector_before_structured_witness :
    vecBeforeLog (write_memory CW2 "u1" "s1" P1 "long_term" []).2.1 = true
    ∧ ((∃ row, Ev.memLogInsert row ∈
          (write_memory CW2 "u1" "s1" P1 "long_term" []).2.1)
        ↔ (resolve_session_uuid CW2 "s1" (some "u1")
            ((dictGet P1 "agent").getD (.str "unknown"))).2.2.isSome = true)
    ∧ (∀ row, Ev.memLogInsert row ∈
          (write_memory CW2 "u1" "s1" P1 "long_term" []).2.1 →
        row.vector_id = R2.mem0_id) :=
  write_memory_vector_before_structured CW2 "u1" "s1" P1 "long_term" [] R2 rfl

/-- Faults: only the `memory_logs` insert raises. -/
def FIns : Faults := ⟨false, false, false, true, false, false, false, false, false, false, false⟩

/-- A world where session resolution succeeds but the structured memory-log
insert raises. -/
def CW3 : World := ⟨some SB2, none, FIns, 0, fun _ => true⟩

/-- Counterexample for C3: on a valid payload with successful session
resolution, a failing structured-store insert makes `write_memory` raise
`MemoryManagerError` instead of returning a result with an empty
supabase_id (unified_manager.py lines 556, 584-591). -/
theorem write_memory_structured_failure_cex :
    validate_jsoncontract CW3.isoOk P1 = .ok ()
    ∧ (resolve_session_uuid CW3 "s1" (some "u1")
        ((dictGet P1 "agent").getD (.str "unknown"))).2.2 = some 0
    ∧ (write_memory CW3 "u1" "s1" P1 "long_term" []).2.2
        = .error (.manager "Failed to write memory") :=
  ⟨rfl, rfl, rfl⟩


theorem mem0_write_supa (w : World) (u c : String) (meta : List (String × JValue)) :
    (mem0_write w u c meta).1.supabase = w.supabase := by
  rcases mem0_write_cases w u c meta with hm | ⟨m, hm0, hm⟩ <;> rw [hm]

theorem mem0_write_faults (w : World) (u c : String) (meta : List (String × JValue)) :
    (mem0_write w u c meta).1.faults = w.faults := by
  rcases mem0_write_cases w u c meta with hm | ⟨m, hm0, hm⟩ <;> rw [hm]

theorem mem0_write_memLogs (w : World) (u c : String) (meta : List (String × JValue)) :
    memLogsOf (mem0_write w u c meta).1 = memLogsOf w := by
  rcases mem0_write_cases w u c meta with hm | ⟨m, hm0, hm⟩
  · rw [hm]
  · rw [hm]
    rfl

theorem resolve_faults (w : World) (s : String) (u : Option String) (a : JValue) :
    (resolve_session_uuid w s u a).1.faults = w.faults := by
  rcases resolve_cases w s u a with ⟨s', hres, _⟩ | ⟨sb, hsb, hres⟩ <;> rw [hres]

theorem resolve_memLogs (w : World) (s : String) (u : Option String) (a : JValue) :
    memLogsOf (resolve_session_uuid w s u a).1 = memLogsOf w := by
  rcases resolve_cases w s u a with ⟨s', hres, _⟩ | ⟨sb, hsb, hres⟩
  · rw [hres]
  · rw [hres]
    simp [memLogsOf, hsb]

theorem resolve_isSome_supa (w : World) (s : String) (u : Option String)
    (a : JValue) (h : (resolve_session_uuid w s u a).2.2.isSome = true) :
    (resolve_session_uuid w s u a).1.supabase.isSome = true := by
  rcases resolve_cases w s u a with ⟨s', hres, hsup⟩ | ⟨sb, hsb, hres⟩
  · rw [hres] at h ⊢
    exact hsup h
  · rw [hres]
    rfl

theorem write_finish_fault (w2 : World) (su mi : Option Nat) (uid sid : String)
    (payload : List (String × JValue)) (ag : JValue) (mt : String)
    (tags : List String) (ct : String)
    (hs : w2.supabase.isSome = true) (hu : su.isSome = true)
    (hf : w2.faults.insMemLog = true) :
    (write_finish w2 su mi uid sid payload ag mt tags ct).2.2
      = .error (.manager "Failed to write memory")
    ∧ memLogsOf (write_finish w2 su mi uid sid payload ag mt tags ct).1
      = memLogsOf w2 := by
  obtain ⟨sb, hsb⟩ := Option.isSome_iff_exists.mp hs
  obtain ⟨i, hi⟩ := Option.isSome_iff_exists.mp hu
  subst hi
  unfold write_finish
  simp only [hsb, hf, if_true]
  exact ⟨trivial, log_event_memLogs w2 uid "memory_write_error"⟩

/-- C3 (amended): when session resolution succeeds and the structured-store
insert inside `write_memory` fails, the failure is NOT tolerated: after a
best-effort audit event, `write_memory` raises `MemoryManagerError` to the
caller, and no structured row is added.  (Only a vector-store failure, or
the absence of the structured client, is tolerated with an empty id;
unified_manager.py lines 542-558 and 584-591.) -/
theorem write_memory_structured_failure_raises (w : World) (uid sid : String)
    (payload : List (String × JValue)) (mt : String) (tags : List String)
    (hv : validate_jsoncontract w.isoOk payload = .ok ())
    (hr : (resolve_session_uuid w sid (some uid)
        ((dictGet payload "agent").getD (.str "unknown"))).2.2.isSome = true)
    (hf : w.faults.insMemLog = true) :
    (write_memory w uid sid payload mt tags).2.2
      = .error (.manager "Failed to write memory")
    ∧ memLogsOf (write_memory w uid sid payload mt tags).1 = memLogsOf w := by
  simp only [write_memory, hv]
  set R := resolve_session_uuid w sid (some uid)
    ((dictGet payload "agent").getD (.str "unknown")) with hR
  set MW := mem0_write R.1 uid
    (pyStr ((dictGet payload "content").getD (.str "")))
    (mem0Metadata uid sid ((dictGet payload "agent").getD (.str "unknown"))
      mt tags payload) with hM
  have hsu : R.2.2.isSome = true := hr
  have hs2 : MW.1.supabase.isSome = true := by
    rw [hM, mem0_write_supa]
    exact resolve_isSome_supa w sid (some uid) _ hr
  have hf2 : MW.1.faults.insMemLog = true := by
    rw [hM, mem0_write_faults, hR, resolve_faults]
    exact hf
  obtain ⟨he, hml⟩ := write_finish_fault MW.1 R.2.2 MW.2.2 uid sid payload
    ((dictGet payload "agent").getD (.str "unknown")) mt tags
    (pyStr ((dictGet payload "content").getD (.str ""))) hs2 hsu hf2
  refine ⟨he, ?_⟩
  rw [hml, hM, mem0_write_memLogs, hR, resolve_memLogs]

/-- Witness for C3 (amended): the concrete world `CW3`. -/
theorem write_memory_structured_failure_raises_witness :
    (write_memory CW3 "u1" "s1" P1 "long_term" []).2.2
      = .error (.manager "Failed to write memory")
    ∧ memLogsOf (write_memory CW3 "u1" "s1" P1 "long_term" []).1 = memLogsOf CW3 :=
  write_memory_structured_failure_raises CW3 "u1" "s1" P1 "long_term" [] rfl rfl rfl

/-- A Supabase state with one active goal and one belief for user u1. -/
def SB4 : Supa := ⟨[], [], [], [⟨"u1", "s1", "active"⟩], [⟨"u1", "s1"⟩], 0⟩

/-- Faults: only the goals select raises. -/
def FGoals : Faults := ⟨false, false, false, false, false, false, true, false, false, false, false⟩

/-- A world whose goal_assessments select raises. -/
def CW4 : World := ⟨some SB4, none, FGoals, 0, fun _ => true⟩

/-- Counterexample for C4: a failing goals fetch aborts `load_context`
entirely — the caller gets `MemoryManagerError`, not a partially filled
snapshot (unified_manager.py lines 416-418 and 449-456; only the Mem0 step
at lines 395-413 has a local try/except). -/
theorem load_context_goals_failure_cex :
    (load_context CW4 "u1" "s1" none true true 10).2
      = .error (.manager "Failed to load context") := rfl

/-- C4 (amended): in `load_context` only the vector-memory fetch is
independently best-effort — when every structured select it performs
succeeds, the call returns a snapshot even if the Mem0 search fails (with
`recent_memories` empty) — while a failure of the session, goals, or
beliefs select aborts the remaining steps and the call raises
`MemoryManagerError` after a best-effort audit event
(unified_manager.py lines 387-456). -/
theorem load_context_only_vector_best_effort (w : World) (uid sid : String)
    (an : Option String) (ig ib : Bool) (mm : Nat) :
    ((∀ sb, w.supabase = some sb →
        w.faults.selSessionAll = false
        ∧ (ig && w.faults.selGoals) = false
        ∧ (ib && w.faults.selBeliefs) = false) →
      ∃ snap, (load_context w uid sid an ig ib mm).2 = .ok snap
        ∧ (w.faults.searchVec = true → snap.recent_memories = []))
    ∧ (∀ sb, w.supabase = some sb → w.faults.selSessionAll = true →
        (load_context w uid sid an ig ib mm).2
          = .error (.manager "Failed to load context"))
    ∧ (∀ sb, w.supabase = some sb → w.faults.selSessionAll = false →
        (ig && w.faults.selGoals) = true →
        (load_context w uid sid an ig ib mm).2
          = .error (.manager "Failed to load context"))
    ∧ (∀ sb, w.supabase = some sb → w.faults.selSessionAll = false →
        (ig && w.faults.selGoals) = false → (ib && w.faults.selBeliefs) = true →
        (load_context w uid sid an ig ib mm).2
          = .error (.manager "Failed to load context")) := by
  refine ⟨?_, ?_, ?_, ?_⟩
  · intro hok
    cases hsb : w.supabase with
    | none =>
      refine ⟨⟨uid, sid, an, none, load_recent w mm, [], []⟩, ?_, ?_⟩
      · simp [load_context, hsb]
      · intro hf
        cases hm : w.mem0 <;> simp [load_recent, hm, hf]
    | some sb =>
      obtain ⟨h1, h2, h3⟩ := hok sb hsb
      refine ⟨⟨uid, sid, an,
        (sb.sessions.filter (fun r => r.session_id == sid)).head?,
        load_recent w mm,
        (if ig then sb.goals.filter (fun g =>
          g.user_id == uid && g.session_id == sid && g.status == "active") else []),
        (if ib then sb.beliefs.filter (fun b =>
          b.user_id == uid && b.session_id == sid) else [])⟩, ?_, ?_⟩
      · simp [load_context, hsb, h1, h2, h3]
      · intro hf
        cases hm : w.mem0 <;> simp [load_recent, hm, hf]
  · intro sb hsb hf
    simp [load_context, hsb, hf, load_fail]
  · intro sb hsb h1 h2
    simp [load_context, hsb, h1, h2, load_fail]
  · intro sb hsb h1 h2 h3
    simp [load_context, hsb, h1, h2, h3, load_fail]

/-- Faults: only the Mem0 search raises. -/
def FSearch : Faults := ⟨false, false, false, false, false, false, false, false, false, false, true⟩

/-- A Mem0 store whose provider would answer one hit. -/
def M9 : Mem0State := ⟨[], 0, [⟨some 0, none⟩]⟩

/-- A healthy Supabase world whose Mem0 search raises. -/
def CW4W : World := ⟨some SB4, some M9, FSearch, 0, fun _ => true⟩

/-- Witness for C4 (amended): with all structured selects healthy and the
Mem0 search failing, `load_context` still returns a snapshot whose
`recent_memories` is empty. -/
theorem load_context_only_vector_best_effort_witness :
    ∃ snap, (load_context CW4W "u1" "s1" none true true 10).2 = .ok snap
      ∧ (CW4W.faults.searchVec = true → snap.recent_memories = []) :=
  (load_context_only_vector_best_effort CW4W "u1" "s1" none true true 10).1
    (fun sb _ => ⟨rfl, rfl, rfl⟩)

/-- C8: `decay_memory` reports as `supabase_deleted` exactly the number of
the user's structured rows strictly older than `now - threshold_days` that
match the optional memory-kind filter (those rows and only those are
removed), reports `mem0_deleted = 0` always (the vector-side delete is a
no-op, never fabricated), and fails only when the structured delete itself
errors (unified_manager.py lines 744-833). -/
theorem decay_memory_counts (w : World) (uid : String) (d : Nat)
    (mt : Option String) :
    (∀ sb, w.supabase = some sb → w.faults.delMemLog = false →
      (decay_memory w uid d mt).2
        = .ok ((sb.memory_logs.filter
            (decayMatches uid (w.now - (d : Int) * 86400) mt)).length, 0)
      ∧ memLogsOf (decay_memory w uid d mt).1
        = sb.memory_logs.filter
            (fun r => !decayMatches uid (w.now - (d : Int) * 86400) mt r))
    ∧ (w.supabase = none → (decay_memory w uid d mt).2 = .ok (0, 0))
    ∧ (∀ e, (decay_memory w uid d mt).2 = .error e →
        ∃ sb, w.supabase = some sb ∧ w.faults.delMemLog = true) := by
  refine ⟨?_, ?_, ?_⟩
  · intro sb hsb hf
    constructor
    · simp [decay_memory, hsb, hf]
    · have h1 : (decay_memory w uid d mt).1
          = (log_event { w with supabase := some { sb with
              memory_logs := sb.memory_logs.filter
                (fun r => !decayMatches uid (w.now - (d : Int) * 86400) mt r) } }
              uid "memory_decayed").1 := by
        simp [decay_memory, hsb, hf]
      rw [h1, log_event_memLogs]
      simp [memLogsOf]
  · intro hsb
    simp [decay_memory, hsb]
  · intro e he
    cases hsb : w.supabase with
    | none => simp [decay_memory, hsb] at he
    | some sb =>
      by_cases hf : w.faults.delMemLog
      · exact ⟨sb, rfl, hf⟩
      · simp [decay_memory, hsb, hf] at he

/-- A memory_logs fixture: one row 60 days old, one row 5 days old
(relative to `CW8.now`). -/
def SB8 : Supa := ⟨[], [
  ⟨0, "u1", 0, .str "a", "write", "long_term", "old", [], [], none, 40 * 86400⟩,
  ⟨1, "u1", 0, .str "a", "write", "long_term", "new", [], [], none, 95 * 86400⟩],
  [], [], [], 2⟩

/-- A healthy world at day 100 holding the decay fixture. -/
def CW8 : World := ⟨some SB8, none, F0, 100 * 86400, fun _ => true⟩

/-- Witness for C8: with a 30-day threshold exactly the 60-day-old row is
deleted and the result is (1, 0). -/
theorem decay_memory_counts_witness :
    (decay_memory CW8 "u1" 30 none).2 = .ok (1, 0) := by
  have h := ((decay_memory_counts CW8 "u1" 30 none).1 SB8 rfl rfl).1
  rw [h]
  rfl

/-- A world with a Mem0 store whose search raises and no Supabase. -/
def CW9 : World := ⟨none, some M9, FSearch, 0, fun _ => true⟩

/-- Counterexample for C9: with the vector search raising and no structured
store, `recall_memory` returns an ordinary empty result — no
coordinator-level error propagates to the caller
(unified_manager.py lines 681-688 catch everything and return []). -/
theorem recall_memory_failure_cex :
    (recall_memory CW9 "u1" "q" none none none 5).2 = .ok [] := rfl

/-- C9 (amended): `recall_memory` never propagates a failure — any
unexpected exception inside it is absorbed: a best-effort audit event
(event_type "memory_recall_error") is written and the caller receives an
ordinary empty sequence, never an error (unified_manager.py
lines 593-688). -/
theorem recall_memory_absorbs_failures (w : World) (uid q : String)
    (sid an : Option String) (tags : Option (List String)) (lim : Nat) :
    (∀ e, (recall_memory w uid q sid an tags lim).2 ≠ .error e)
    ∧ (∀ m, w.mem0 = some m → w.faults.searchVec = true →
        (recall_memory w uid q sid an tags lim).2 = .ok []
        ∧ (∀ sb, w.supabase = some sb → w.faults.insAudit = false →
            auditLogsOf (recall_memory w uid q sid an tags lim).1
              = sb.audit_logs ++ [⟨uid, "memory_recall_error"⟩])) := by
  constructor
  · intro e he
    cases hm : w.mem0 with
    | none => simp [recall_memory, hm] at he
    | some m =>
      by_cases hf : w.faults.searchVec
      · simp [recall_memory, hm, hf] at he
      · cases hsb : w.supabase with
        | none => simp [recall_memory, hm, hf, hsb] at he
        | some sb =>
          by_cases hemp : (m.searchAnswer.take lim).isEmpty
          · simp [recall_memory, hm, hf, hsb, hemp] at he
          · by_cases hsel : w.faults.selMemLogByVec
                && (m.searchAnswer.take lim).any (fun h => h.id.isSome)
            · simp [recall_memory, hm, hf, hsb, hemp, hsel] at he
            · simp [recall_memory, hm, hf, hsb, hemp, hsel] at he
  · intro m hm hf
    constructor
    · simp [recall_memory, hm, hf]
    · intro sb hsb ha
      have h1 : (recall_memory w uid q sid an tags lim).1
          = (log_event w uid "memory_recall_error").1 := by
        simp [recall_memory, hm, hf]
      rw [h1]
      exact log_event_audit w uid "memory_recall_error" sb hsb ha

/-- An empty Supabase state. -/
def SBe : Supa := ⟨[], [], [], [], [], 0⟩

/-- A world with both stores configured whose Mem0 search raises. -/
def CW9A : World := ⟨some SBe, some M9, FSearch, 0, fun _ => true⟩

/-- Witness for C9 (amended): concrete absorbed failure with its audit row. -/
theorem recall_memory_absorbs_failures_witness :
    (recall_memory CW9A "u1" "q" none none none 5).2 = .ok []
    ∧ (∀ sb, CW9A.supabase = some sb → CW9A.faults.insAudit = false →
        auditLogsOf (recall_memory CW9A "u1" "q" none none none 5).1
          = sb.audit_logs ++ [⟨"u1", "memory_recall_error"⟩]) :=
  (recall_memory_absorbs_failures CW9A "u1" "q" none none none 5).2 M9 rfl rfl
